import Mathlib

/-!
Verification development for the ASN.1 signature parser of `autograph-pls`
(`parsesign.go`).  Byte buffers are modelled as `List Nat` (each entry one
byte value), Go `int` (64-bit signed) as `Int` with explicit two's-complement
wrapping where the source can overflow, and Go panics / non-termination of
loops are made observable through an outcome type and a fuel parameter:
`none` means the loop has not finished within the given fuel, so a result of
`none` for every fuel is exactly non-termination of the source loop.
-/

set_option maxRecDepth 100000

set_option maxHeartbeats 1000000

deriving instance DecidableEq for Except

namespace ParseSign

/-- Outcome of running a piece of Go code: either a value, or a runtime
panic (for this program, a slice-bounds violation). -/
inductive GoOutcome (α : Type) where
  | ok (a : α)
  | crashed
  deriving DecidableEq, Repr

/-- Map over the value of a `GoOutcome`. -/
def GoOutcome.map {α β : Type} (f : α → β) : GoOutcome α → GoOutcome β
  | .ok a => .ok (f a)
  | .crashed => .crashed

/-- The fields of `ASN1Element` (parsesign.go) that take part in the control
flow.  `Length` is a Go `int` (64-bit, signed; it can overflow during the
long-form accumulation), hence `Int` here.  The display-only fields
`TagName` and `Content` are pure formatting and are omitted: they are
computed from the fields below and never read by the parser. -/
structure ASN1Element where
  Depth : Nat
  Offset : Int
  HeaderLen : Nat
  Length : Int
  Tag : Nat
  Class : Nat
  IsCompound : Bool
  deriving DecidableEq, Repr

/-- The Go zero value of `ASN1Element` (`var lastElement ASN1Element`). -/
def zeroElement : ASN1Element :=
  { Depth := 0, Offset := 0, HeaderLen := 0, Length := 0,
    Tag := 0, Class := 0, IsCompound := false }

/-- Two's-complement wrap of an integer into the 64-bit signed range,
modelling Go `int` overflow. -/
def wrap64 (x : Int) : Int := (x + 2 ^ 63) % 2 ^ 64 - 2 ^ 63

/-- The long-form length accumulation of `parseASN1Element`:
`element.Length = (element.Length << 8) | int(data[bytesRead])` iterated over
the length octets, on a wrapping 64-bit signed `int`.  Because the shifted
value has an empty low byte, the bitwise or is addition of the byte. -/
def accumLen (octets : List Nat) : Int :=
  octets.foldl (fun acc b => wrap64 (acc * 256) + (b : Int)) 0

/-- Embedding of `parseASN1Element(data []byte, depth int, offset int)`
(parsesign.go).  Returns the element together with
`totalBytes = element.HeaderLen + element.Length`, a Go `int` that the
source computes without checking for a negative `Length`. -/
def parseASN1Element (data : List Nat) (depth : Nat) (offset : Int) :
    Except String (ASN1Element × Int) :=
  match data with
  | b0 :: b1 :: rest =>
    let Class := (b0 &&& 0xC0) >>> 6
    let IsCompound := decide (b0 &&& 0x20 ≠ 0)
    let Tag := b0 &&& 0x1F
    if b1 &&& 0x80 = 0 then
      -- short form
      let Length : Int := (b1 : Int)
      let element : ASN1Element :=
        { Depth := depth, Offset := offset, HeaderLen := 2, Length := Length,
          Tag := Tag, Class := Class, IsCompound := IsCompound }
      let totalBytes : Int := 2 + Length
      if totalBytes > (data.length : Int) then
        .error "element extends beyond available data"
      else
        .ok (element, totalBytes)
    else
      -- long form
      let lengthOctets := b1 &&& 0x7F
      if lengthOctets = 0 then
        .error "indefinite length not supported"
      else if data.length < 2 + lengthOctets then
        .error "insufficient data for length octets"
      else
        let Length := accumLen (rest.take lengthOctets)
        let headerLen := 2 + lengthOctets
        let element : ASN1Element :=
          { Depth := depth, Offset := offset, HeaderLen := headerLen,
            Length := Length, Tag := Tag, Class := Class,
            IsCompound := IsCompound }
        let totalBytes : Int := (headerLen : Int) + Length
        if totalBytes > (data.length : Int) then
          .error "element extends beyond available data"
        else
          .ok (element, totalBytes)
  | _ => .error "insufficient data for ASN.1 element"

/-- One base-128 chunk of `parseOID`: the inner accumulation loop.  `value`
is a Go `uint64`, wrapping modulo `2 ^ 64`; the shifted value has an empty
low 7 bits, so the bitwise or is addition.  Returns the finished value and
the remaining bytes. -/
def parseOIDChunk : List Nat → Nat → Nat × List Nat
  | [], value => (value, [])
  | b :: rest, value =>
    let value : Nat := (value * 128) % 2 ^ 64 + (b &&& 0x7F)
    if b &&& 0x80 = 0 then (value, rest) else parseOIDChunk rest value

/-- The outer loop of `parseOID` over the remaining subidentifiers,
producing one decimal string per chunk.  The first argument only bounds
the number of chunks for termination; every chunk consumes at least one
byte, so starting it at the byte count (as `parseOIDRest` does) is always
enough and the bound is never the reason the loop stops. -/
def parseOIDRestAux : Nat → List Nat → List String
  | 0, _ => []
  | fuel + 1, l =>
    match l with
    | [] => []
    | b :: rest =>
      let p := parseOIDChunk (b :: rest) 0
      toString p.1 :: parseOIDRestAux fuel p.2

/-- The remaining subidentifier strings of `parseOID`. -/
def parseOIDRest (l : List Nat) : List String :=
  parseOIDRestAux l.length l

/-- The arc strings accumulated by `parseOID` (the `oid []string` slice):
first byte split as `first/40` and `first%40`, then the base-128 chunks. -/
def parseOIDArcs (content : List Nat) : List String :=
  match content with
  | [] => []
  | first :: rest =>
    toString (first / 40) :: toString (first % 40) :: parseOIDRest rest

/-- Embedding of `parseOID(content []byte) string` (parsesign.go):
the arc strings joined with dots. -/
def parseOID (content : List Nat) : String :=
  match content with
  | [] => ""
  | _ => String.intercalate "." (parseOIDArcs content)

/-- Certificate field OIDs (parsesign.go constants). -/
def OIDCommonName : String := "2.5.4.3"

/-- Country name OID constant. -/
def OIDCountryName : String := "2.5.4.6"

/-- Locality name OID constant. -/
def OIDLocalityName : String := "2.5.4.7"

/-- Organization name OID constant. -/
def OIDOrganizationName : String := "2.5.4.10"

/-- Email address OID constant. -/
def OIDEmailAddress : String := "1.2.840.113549.1.9.1"

/-- Embedding of `SignatureValidation` (parsesign.go); the string fields
hold the raw value bytes (`string(valueBytes)`). -/
structure SignatureValidation where
  HasCommonName : Bool
  HasCountryName : Bool
  HasLocalityName : Bool
  HasOrganizationName : Bool
  HasEmailAddress : Bool
  CommonName : List Nat
  CountryName : List Nat
  LocalityName : List Nat
  OrganizationName : List Nat
  EmailAddress : List Nat
  deriving DecidableEq, Repr

/-- The Go zero value `SignatureValidation{}`. -/
def emptyValidation : SignatureValidation :=
  { HasCommonName := false, HasCountryName := false, HasLocalityName := false,
    HasOrganizationName := false, HasEmailAddress := false,
    CommonName := [], CountryName := [], LocalityName := [],
    OrganizationName := [], EmailAddress := [] }

/-- Embedding of `(sv SignatureValidation) IsValid() bool`. -/
def SignatureValidation.IsValid (sv : SignatureValidation) : Bool :=
  sv.HasCommonName && sv.HasCountryName && sv.HasLocalityName &&
    sv.HasOrganizationName && sv.HasEmailAddress

/-- Embedding of `setValidationField(validation, oid, value)`
(parsesign.go): the switch over the five recognized OIDs. -/
def setValidationField (v : SignatureValidation) (oid : String)
    (value : List Nat) : SignatureValidation :=
  if oid = OIDCommonName then
    { v with HasCommonName := true, CommonName := value }
  else if oid = OIDCountryName then
    { v with HasCountryName := true, CountryName := value }
  else if oid = OIDLocalityName then
    { v with HasLocalityName := true, LocalityName := value }
  else if oid = OIDOrganizationName then
    { v with HasOrganizationName := true, OrganizationName := value }
  else if oid = OIDEmailAddress then
    { v with HasEmailAddress := true, EmailAddress := value }
  else v

/-- The body of one iteration of the `findFieldsInASN1` loop that handles a
decoded OID element: look at the element immediately following it and, if
that is a primitive non-empty element, record its raw bytes under the OID.
`element` is the decoded OID element, `bytesRead` its total byte count.
Mirrors parsesign.go lines 230-245.  A negative `valueOffset` (possible
because `bytesRead` is an unchecked Go `int`) makes `data[valueOffset:]`
panic. -/
def oidStep (data : List Nat) (offset : Int) (element : ASN1Element)
    (bytesRead : Int) (v : SignatureValidation) :
    GoOutcome SignatureValidation :=
  if element.Tag = 6 ∧ element.Length > 0 then
    let content :=
      (data.drop (offset.toNat + element.HeaderLen)).take element.Length.toNat
    let oid := parseOID content
    let valueOffset := offset + bytesRead
    if valueOffset < (data.length : Int) then
      if valueOffset < 0 then .crashed
      else
        match parseASN1Element (data.drop valueOffset.toNat) 0 valueOffset with
        | .ok (valueElement, _) =>
          if ¬valueElement.IsCompound ∧ valueElement.Length > 0 then
            let valueBytes :=
              (data.drop (valueOffset.toNat + valueElement.HeaderLen)).take
                valueElement.Length.toNat
            .ok (setValidationField v oid valueBytes)
          else .ok v
        | .error _ => .ok v
    else .ok v
  else .ok v

/-- Embedding of the loop of `findFieldsInASN1(data, validation)`
(parsesign.go lines 220-258).  `fuel` bounds the number of executed loop
iterations and recursive calls; `none` means the computation did not finish
within `fuel` steps, so `(∀ fuel, _ = none)` is non-termination. -/
def findFieldsLoop : Nat → List Nat → Int → SignatureValidation →
    Option (GoOutcome SignatureValidation)
  | 0, _, _, _ => none
  | fuel + 1, data, offset, v =>
    if offset < (data.length : Int) then
      if offset < 0 then some .crashed
      else
        match parseASN1Element (data.drop offset.toNat) 0 offset with
        | .error _ => some (.ok v)
        | .ok (element, bytesRead) =>
          match oidStep data offset element bytesRead v with
          | .crashed => some .crashed
          | .ok v1 =>
            if element.IsCompound ∧ element.Length > 0 then
              let contentStart : Int := (element.HeaderLen : Int)
              if contentStart < bytesRead ∧
                  element.Length ≤ (data.length : Int) - offset - contentStart then
                let content :=
                  (data.drop (offset.toNat + element.HeaderLen)).take
                    element.Length.toNat
                match findFieldsLoop fuel content 0 v1 with
                | none => none
                | some .crashed => some .crashed
                | some (.ok v2) => findFieldsLoop fuel data (offset + bytesRead) v2
              else findFieldsLoop fuel data (offset + bytesRead) v1
            else findFieldsLoop fuel data (offset + bytesRead) v1
    else some (.ok v)

/-- Embedding of `validateSignatureFields(data)` (parsesign.go): run the
field walk over `data` starting from the zero validation. -/
def validateSignatureFields (fuel : Nat) (data : List Nat) :
    Option (GoOutcome SignatureValidation) :=
  findFieldsLoop fuel data 0 emptyValidation

mutual

/-- Embedding of `findLastOctetString(data, keySize, depth)`
(parsesign.go lines 289-316): run the region loop, then, if the last
successfully decoded element of this region is an OCTET STRING (tag 4),
overwrite the key size with `lastElement.Length * 8`. -/
def findLastOctetString : Nat → List Nat → Int → Nat →
    Option (GoOutcome Int)
  | 0, _, _, _ => none
  | fuel + 1, data, keySize, depth =>
    match findLastLoop fuel data 0 keySize depth zeroElement with
    | none => none
    | some .crashed => some .crashed
    | some (.ok (ks, lastElement)) =>
      if lastElement.Tag = 4 then some (.ok (lastElement.Length * 8))
      else some (.ok ks)

/-- The loop of `findLastOctetString`: walks the region, remembering the
most recently decoded element and recursing into compound elements. -/
def findLastLoop : Nat → List Nat → Int → Int → Nat → ASN1Element →
    Option (GoOutcome (Int × ASN1Element))
  | 0, _, _, _, _, _ => none
  | fuel + 1, data, offset, keySize, depth, lastElement =>
    if offset < (data.length : Int) then
      if offset < 0 then some .crashed
      else
        match parseASN1Element (data.drop offset.toNat) depth offset with
        | .error _ => some (.ok (keySize, lastElement))
        | .ok (element, bytesRead) =>
          if element.IsCompound ∧ element.Length > 0 then
            let contentStart : Int := (element.HeaderLen : Int)
            if contentStart < bytesRead ∧
                element.Length ≤ (data.length : Int) - offset - contentStart then
              let content :=
                (data.drop (offset.toNat + element.HeaderLen)).take
                  element.Length.toNat
              match findLastOctetString fuel content keySize (depth + 1) with
              | none => none
              | some .crashed => some .crashed
              | some (.ok ks1) =>
                findLastLoop fuel data (offset + bytesRead) ks1 depth element
            else findLastLoop fuel data (offset + bytesRead) keySize depth element
          else findLastLoop fuel data (offset + bytesRead) keySize depth element
    else some (.ok (keySize, lastElement))

end

/-- Embedding of `calculateKeySize(data)` (parsesign.go lines 282-286):
`keySize := 0; findLastOctetString(data, &keySize, 0)`. -/
def calculateKeySize (fuel : Nat) (data : List Nat) : Option (GoOutcome Int) :=
  findLastOctetString fuel data 0 0

mutual

/-- Write-recording twin of `findLastOctetString`: instead of threading the
key size, collect the values `lastElement.Length * 8` that the source
writes through the `keySize` pointer, in execution order.  The two walkers
have identical control flow; the refinement lemma below shows the source's
result is the last recorded write (or the incoming key size when the list
is empty). -/
def keyWrites : Nat → List Nat → Nat → Option (GoOutcome (List Int))
  | 0, _, _ => none
  | fuel + 1, data, depth =>
    match keyWritesLoop fuel data 0 depth zeroElement with
    | none => none
    | some .crashed => some .crashed
    | some (.ok (ws, lastElement)) =>
      if lastElement.Tag = 4 then some (.ok (ws ++ [lastElement.Length * 8]))
      else some (.ok ws)

/-- The loop of `keyWrites`, mirroring `findLastLoop`. -/
def keyWritesLoop : Nat → List Nat → Int → Nat → ASN1Element →
    Option (GoOutcome (List Int × ASN1Element))
  | 0, _, _, _, _ => none
  | fuel + 1, data, offset, depth, lastElement =>
    if offset < (data.length : Int) then
      if offset < 0 then some .crashed
      else
        match parseASN1Element (data.drop offset.toNat) depth offset with
        | .error _ => some (.ok ([], lastElement))
        | .ok (element, bytesRead) =>
          if element.IsCompound ∧ element.Length > 0 then
            let contentStart : Int := (element.HeaderLen : Int)
            if contentStart < bytesRead ∧
                element.Length ≤ (data.length : Int) - offset - contentStart then
              let content :=
                (data.drop (offset.toNat + element.HeaderLen)).take
                  element.Length.toNat
              match keyWrites fuel content (depth + 1) with
              | none => none
              | some .crashed => some .crashed
              | some (.ok ws1) =>
                match keyWritesLoop fuel data (offset + bytesRead) depth
                    element with
                | none => none
                | some .crashed => some .crashed
                | some (.ok (ws2, le)) => some (.ok (ws1 ++ ws2, le))
            else keyWritesLoop fuel data (offset + bytesRead) depth element
          else keyWritesLoop fuel data (offset + bytesRead) depth element
    else some (.ok ([], lastElement))

end

/-- The part of the standard library `asn1.RawValue` that
`FindValidSignature` actually consumes: the `FullBytes` field.  The other
fields (tag, class, compound flag, inner bytes) are returned to the caller
but never read by the program logic. -/
structure RawValue where
  fullBytes : List Nat
  deriving DecidableEq, Repr

/-- The long-form length accumulation of the Go standard library
(`encoding/asn1.parseTagAndLength`): per octet, fail once the running
length reaches `2 ^ 23`, shift in the octet, and fail while the running
length is still zero (superfluous leading zeros). -/
def goLenOctets : List Nat → Nat → Option Nat
  | [], len => some len
  | b :: rest, len =>
    if len ≥ 2 ^ 23 then none
    else
      let len := len * 256 + b
      if len = 0 then none else goLenOctets rest len

/-- Models the external Go standard library call
`asn1.Unmarshal(buffer, &raw)` for a `RawValue` destination
(`encoding/asn1`, `parseTagAndLength` plus the truncation check): one
tag byte (the multi-byte tag path for tag bits 31 is never reachable here,
because the locator only tries buffers whose first byte is `0x30`, and is
modelled as a failure), a short- or long-form length with the standard
library's strictness checks (no indefinite length, no superfluous leading
zeros in the length, a cap of `2 ^ 23` on the running length, minimal
encoding), and `FullBytes = buffer[:headerLen+length]`.  Returns `none` on
any parse error; the remaining bytes after the element are computed by the
library but discarded unread by `FindValidSignature`, so they are not
returned. -/
def goUnmarshalRaw (data : List Nat) : Option RawValue :=
  match data with
  | b0 :: b1 :: rest =>
    if b0 &&& 0x1F = 0x1F then none
    else if b1 &&& 0x80 = 0 then
      let length := b1 &&& 0x7F
      if length > rest.length then none
      else some ⟨data.take (2 + length)⟩
    else
      let numBytes := b1 &&& 0x7F
      if numBytes = 0 then none
      else if rest.length < numBytes then none
      else
        match goLenOctets (rest.take numBytes) 0 with
        | none => none
        | some length =>
          if length < 0x80 then none
          else if length > rest.length - numBytes then none
          else some ⟨data.take (2 + numBytes + length)⟩
  | _ => none

/-- The backward scan loop of `FindValidSignature` (parsesign.go lines
187-210).  The counter `j` stands for the candidate offset `i = j - 1`;
`j = 0` means the scan is exhausted (`i` went below 0).  `um` is the
function modelling the external `asn1.Unmarshal` call. -/
def findLoop (um : List Nat → Option RawValue) (fuel : Nat)
    (data : List Nat) : Nat →
    Option (GoOutcome (Except String (RawValue × Nat)))
  | 0 => some (.ok (.error "no valid signature found"))
  | j + 1 =>
    let i := j
    if data.getD i 0 = 0x30 ∧ data.getD (i + 1) 0 = 0x82 then
      match um (data.drop i) with
      | none => findLoop um fuel data j
      | some raw =>
        match validateSignatureFields fuel raw.fullBytes with
        | none => none
        | some .crashed => some .crashed
        | some (.ok validation) =>
          if validation.IsValid then some (.ok (.ok (raw, i)))
          else findLoop um fuel data j
    else findLoop um fuel data j

/-- Embedding of `FindValidSignature()` (parsesign.go): scan backwards
from `len(data) - 2` for the `0x30 0x82` marker, unmarshal, validate. -/
def findValidSignature (um : List Nat → Option RawValue) (fuel : Nat)
    (data : List Nat) :
    Option (GoOutcome (Except String (RawValue × Nat))) :=
  findLoop um fuel data (data.length - 1)

/-- The acceptance condition of the scan at candidate offset `i`: marker
bytes `0x30 0x82`, a successful unmarshal, and a fully valid field
validation of the unmarshalled bytes. -/
def acceptsB (um : List Nat → Option RawValue) (fuel : Nat)
    (data : List Nat) (i : Nat) : Bool :=
  decide (data.getD i 0 = 0x30 ∧ data.getD (i + 1) 0 = 0x82) &&
    match um (data.drop i) with
    | none => false
    | some raw =>
      match validateSignatureFields fuel raw.fullBytes with
      | some (.ok validation) => validation.IsValid
      | _ => false

/-- A candidate offset the scan passes over cleanly: no marker, or a failed
unmarshal, or a completed validation that is not fully valid. -/
def rejectsB (um : List Nat → Option RawValue) (fuel : Nat)
    (data : List Nat) (i : Nat) : Bool :=
  if data.getD i 0 = 0x30 ∧ data.getD (i + 1) 0 = 0x82 then
    match um (data.drop i) with
    | none => true
    | some raw =>
      match validateSignatureFields fuel raw.fullBytes with
      | some (.ok validation) => !validation.IsValid
      | _ => false
  else true

/-! ### Recording traversal: the sequence of field-set events

To state "the last occurrence encountered in the traversal wins" we mirror
`findFieldsInASN1` by a walker that, instead of mutating the validation,
emits the list of `(oid, valueBytes)` pairs passed to `setValidationField`,
in execution order.  The two walkers have identical control flow, which the
refinement lemma below makes precise. -/

/-- Fold a list of recorded `(oid, valueBytes)` events over a validation,
applying `setValidationField` for each in order. -/
def foldPair (v : SignatureValidation) (evs : List (String × List Nat)) :
    SignatureValidation :=
  evs.foldl (fun acc p => setValidationField acc p.1 p.2) v

/-- The value of the last event for `oid` in the list, if any. -/
def lastValue (oid : String) (evs : List (String × List Nat)) :
    Option (List Nat) :=
  evs.foldl (fun acc p => if p.1 = oid then some p.2 else acc) none

/-- Project the `(present, value)` pair of one of the five recognized
attributes out of a validation. -/
def getField (oid : String) (v : SignatureValidation) : Bool × List Nat :=
  if oid = OIDCommonName then (v.HasCommonName, v.CommonName)
  else if oid = OIDCountryName then (v.HasCountryName, v.CountryName)
  else if oid = OIDLocalityName then (v.HasLocalityName, v.LocalityName)
  else if oid = OIDOrganizationName then
    (v.HasOrganizationName, v.OrganizationName)
  else if oid = OIDEmailAddress then (v.HasEmailAddress, v.EmailAddress)
  else (false, [])

/-- Event-emitting twin of `oidStep`: the `(oid, valueBytes)` pairs (zero
or one of them) that the step passes to `setValidationField`. -/
def oidStepEvents (data : List Nat) (offset : Int) (element : ASN1Element)
    (bytesRead : Int) : GoOutcome (List (String × List Nat)) :=
  if element.Tag = 6 ∧ element.Length > 0 then
    let content :=
      (data.drop (offset.toNat + element.HeaderLen)).take element.Length.toNat
    let oid := parseOID content
    let valueOffset := offset + bytesRead
    if valueOffset < (data.length : Int) then
      if valueOffset < 0 then .crashed
      else
        match parseASN1Element (data.drop valueOffset.toNat) 0 valueOffset with
        | .ok (valueElement, _) =>
          if ¬valueElement.IsCompound ∧ valueElement.Length > 0 then
            let valueBytes :=
              (data.drop (valueOffset.toNat + valueElement.HeaderLen)).take
                valueElement.Length.toNat
            .ok [(oid, valueBytes)]
          else .ok []
        | .error _ => .ok []
    else .ok []
  else .ok []

/-- Event-emitting twin of `findFieldsLoop`: the `(oid, valueBytes)` pairs
recorded during the walk, in document (execution) order. -/
def fieldEventsLoop : Nat → List Nat → Int →
    Option (GoOutcome (List (String × List Nat)))
  | 0, _, _ => none
  | fuel + 1, data, offset =>
    if offset < (data.length : Int) then
      if offset < 0 then some .crashed
      else
        match parseASN1Element (data.drop offset.toNat) 0 offset with
        | .error _ => some (.ok [])
        | .ok (element, bytesRead) =>
          match oidStepEvents data offset element bytesRead with
          | .crashed => some .crashed
          | .ok evs1 =>
            if element.IsCompound ∧ element.Length > 0 then
              let contentStart : Int := (element.HeaderLen : Int)
              if contentStart < bytesRead ∧
                  element.Length ≤ (data.length : Int) - offset - contentStart then
                let content :=
                  (data.drop (offset.toNat + element.HeaderLen)).take
                    element.Length.toNat
                match fieldEventsLoop fuel content 0 with
                | none => none
                | some .crashed => some .crashed
                | some (.ok evs2) =>
                  match fieldEventsLoop fuel data (offset + bytesRead) with
                  | none => none
                  | some .crashed => some .crashed
                  | some (.ok evs3) => some (.ok (evs1 ++ evs2 ++ evs3))
              else
                match fieldEventsLoop fuel data (offset + bytesRead) with
                | none => none
                | some .crashed => some .crashed
                | some (.ok evs3) => some (.ok (evs1 ++ evs3))
            else
              match fieldEventsLoop fuel data (offset + bytesRead) with
              | none => none
              | some .crashed => some .crashed
              | some (.ok evs3) => some (.ok (evs1 ++ evs3))
    else some (.ok [])

/-- The recorded field events of a whole `validateSignatureFields` walk. -/
def fieldEvents (fuel : Nat) (data : List Nat) :
    Option (GoOutcome (List (String × List Nat))) :=
  fieldEventsLoop fuel data 0

/-! ### The enhanced tree walker, modelled from the spec

The repository's tests call `parseASN1Element(data, MaxRecursionDepth+1, 0)`
expecting an error and call `findFieldsInASN1WithDepth`, and its testing
guide fixes `MaxRecursionDepth = 50` and `MaxElementsPerLevel = 10000`; the
walker carrying those limits is not among the provided sources, so it is
modelled here from the spec (sections 4.1 and 4.2). -/

/-- The decode failure kinds named by the spec (section 7). -/
inductive DecodeErr where
  | truncatedHeader
  | unsupportedLongFormTag
  | indefiniteLengthUnsupported
  | truncatedLength
  | lengthOverflow
  | truncatedContent
  | recursionLimitExceeded
  | tooManyElements
  deriving DecidableEq, Repr

/-- Modelled from the spec: the fixed recursion-depth ceiling (default 50). -/
def MaxRecursionDepth : Nat := 50

/-- Modelled from the spec: the per-region element-count ceiling
(default 10000). -/
def MaxElementsPerLevel : Nat := 10000

/-- Modelled from the spec: one decoded TLV header of the depth-aware
decoder (spec section 4.1; all lengths are unsigned). -/
structure ElemD where
  tagClass : Nat
  isConstructed : Bool
  tagNumber : Nat
  contentLength : Nat
  headerLength : Nat
  deriving DecidableEq, Repr

/-- Modelled from the spec: the TagDecoder of the depth-aware decoder that
is missing from the provided sources (spec section 4.1, plus the depth
check the spec's TreeWalker section 4.2 and the tests require:
decoding a constructed element at depth at least `MaxRecursionDepth` fails
with `RecursionLimitExceeded`).  Byte fields are taken apart
arithmetically: tag class is the top 2 bits, the constructed flag bit 5,
the tag number the low 5 bits; length is accumulated into an unsigned
63-bit-bounded value, failing with `LengthOverflow` beyond that. -/
def parseElemD (data : List Nat) (depth : Nat) : Except DecodeErr (ElemD × Nat) :=
  match data with
  | b0 :: b1 :: rest =>
    let tagNumber := b0 % 32
    let isConstructed := decide (b0 / 32 % 2 = 1)
    let tagClass := b0 / 64
    if tagNumber = 31 then .error .unsupportedLongFormTag
    else if isConstructed ∧ MaxRecursionDepth ≤ depth then
      .error .recursionLimitExceeded
    else if b1 < 128 then
      let len := b1 % 128
      if len ≤ rest.length then
        .ok (⟨tagClass, isConstructed, tagNumber, len, 2⟩, 2 + len)
      else .error .truncatedContent
    else
      let numOctets := b1 % 128
      if numOctets = 0 then .error .indefiniteLengthUnsupported
      else if rest.length < numOctets then .error .truncatedLength
      else
        let len := (rest.take numOctets).foldl (fun acc b => acc * 256 + b) 0
        if 2 ^ 63 ≤ len then .error .lengthOverflow
        else if rest.length - numOctets < len then .error .truncatedContent
        else
          .ok (⟨tagClass, isConstructed, tagNumber, len, 2 + numOctets⟩,
            2 + numOctets + len)
  | _ => .error .truncatedHeader

/-- Modelled from the spec: the TreeWalker region walk (spec section 4.2)
of the depth-aware walker that is missing from the provided sources.
Returns the number of elements decoded at this level together with every
decode failure encountered in the region (its own and those of its
sub-trees, in document order); a failure terminates only the region it
occurs in, and elements already decoded stay counted.  `fuel` bounds the
step count; `none` means the fuel ran out. -/
def walkLoop : Nat → List Nat → Nat → Nat → Option (Nat × List DecodeErr)
  | 0, _, _, _ => none
  | fuel + 1, data, depth, count =>
    match data with
    | [] => some (count, [])
    | _ :: _ =>
      if MaxElementsPerLevel ≤ count then some (count, [.tooManyElements])
      else
        match parseElemD data depth with
        | .error e => some (count, [e])
        | .ok (element, totalBytes) =>
          let childResult :=
            if element.isConstructed ∧ 0 < element.contentLength then
              walkLoop fuel
                ((data.drop element.headerLength).take element.contentLength)
                (depth + 1) 0
            else some (0, [])
          match childResult with
          | none => none
          | some (_, childErrs) =>
            match walkLoop fuel (data.drop totalBytes) depth (count + 1) with
            | none => none
            | some (n, errs) => some (n, childErrs ++ errs)

/-- Modelled from the spec: walk one region starting with zero elements
decoded. -/
def walkASN1Region (fuel : Nat) (data : List Nat) (depth : Nat) :
    Option (Nat × List DecodeErr) :=
  walkLoop fuel data depth 0

/-! ### Concrete inputs -/

/-- Ten bytes: a SEQUENCE header whose long form states 8 length octets
whose big-endian value is `2 ^ 64 - 10`, which the source accumulates into
the Go `int` `-10`; the element then has `HeaderLen = 10`, `Length = -10`
and `totalBytes = 0`, so the walker never advances. -/
def evilInput : List Nat :=
  [0x30, 0x88, 0xFF, 0xFF, 0xFF, 0xFF, 0xFF, 0xFF, 0xFF, 0xF6]

/-- A 270-byte buffer that the standard library unmarshal accepts whole
(a SEQUENCE of content length 266) and whose content begins with
`evilInput`, so that validating the unmarshalled bytes never terminates. -/
def evilFile : List Nat :=
  [0x30, 0x82, 0x01, 0x0A] ++ evilInput ++ List.replicate 256 0

/-- One `OID, PrintableString(1 byte)` sibling pair. -/
def oidPair (oidBytes : List Nat) (valByte : Nat) : List Nat :=
  [6, oidBytes.length] ++ oidBytes ++ [19, 1, valByte]

/-- The DER bytes of the five recognized attribute OIDs. -/
def cnBytes : List Nat := [0x55, 0x04, 0x03]

/-- Country name OID bytes. -/
def countryBytes : List Nat := [0x55, 0x04, 0x06]

/-- Locality name OID bytes. -/
def localityBytes : List Nat := [0x55, 0x04, 0x07]

/-- Organization name OID bytes. -/
def orgBytes : List Nat := [0x55, 0x04, 0x0A]

/-- Email address OID bytes (1.2.840.113549.1.9.1). -/
def emailBytes : List Nat := [0x2A, 0x86, 0x48, 0x86, 0xF7, 0x0D, 0x01, 0x09, 0x01]

/-- Content of a fully attribute-complete certificate-like structure:
the five OID/value pairs followed by padding (an OCTET STRING) that lifts
the content length to 257, so that the `0x30 0x82` two-byte-length marker
is the correct header. -/
def certContent : List Nat :=
  oidPair cnBytes 65 ++ oidPair countryBytes 66 ++ oidPair localityBytes 67 ++
    oidPair orgBytes 68 ++ oidPair emailBytes 69 ++
    ([4, 0x81, 208] ++ List.replicate 208 0)

/-- A 261-byte buffer holding one complete, attribute-valid signature
structure at offset 0: marker `0x30 0x82`, two length bytes `0x01 0x01`
(257), then `certContent`. -/
def certFile : List Nat := [0x30, 0x82, 0x01, 0x01] ++ certContent

/-- A 260-byte decoy: a structurally decodable SEQUENCE (content length
256) containing no certificate OIDs at all. -/
def decoyFile : List Nat :=
  [0x30, 0x82, 0x01, 0x00] ++ ([4, 0x81, 0xFD] ++ List.replicate 253 0)

/-- The signature structure followed by the structurally-valid decoy: the
backward scan meets the decoy first and must reject it and continue. -/
def certDecoyFile : List Nat := certFile ++ decoyFile

/-- A buffer with the same attribute OID twice, each followed by a one-byte
primitive value: first value 65, second value 66. -/
def dupCNData : List Nat := oidPair cnBytes 65 ++ oidPair cnBytes 66

/-- The validation that the field walk computes on `dupCNData`: common
name present with the second occurrence's value. -/
def dupValidation : SignatureValidation :=
  { emptyValidation with HasCommonName := true, CommonName := [66] }

/-- The field events the walk records on `dupCNData`. -/
def dupEvents : List (String × List Nat) :=
  [(OIDCommonName, [65]), (OIDCommonName, [66])]

/-- The `k`-fold constructed nesting `SEQUENCE { ... SEQUENCE { NULL } }`
used for the depth-limit statements: `nestedSeq k` has `k` constructed
wrappers around a primitive NULL. -/
def nestedSeq : Nat → List Nat
  | 0 => [5, 0]
  | k + 1 =>
    let b := nestedSeq k
    0x30 :: b.length :: b

/-- A flat region of `n` primitive `NULL` elements (2 bytes each). -/
def nullElems : Nat → List Nat
  | 0 => []
  | n + 1 => 5 :: 0 :: nullElems n

/-- The buffer `SEQUENCE { OCTET STRING of n zero bytes }`. -/
def seqOct (n : Nat) : List Nat := 0x30 :: (n + 2) :: 4 :: n :: List.replicate n 0

/-- The buffer `SEQUENCE { OCTET STRING of 256 zero bytes }`, both lengths
in two-octet long form (content 260 bytes, octet string 256 bytes). -/
def seqOct256 : List Nat :=
  [0x30, 0x82, 0x01, 0x04] ++ ([4, 0x82, 0x01, 0x00] ++ List.replicate 256 0)

/-! ### Helper lemmas -/

theorem land_127_eq (b : Nat) (h : b < 256) : b &&& 127 = b % 128 := by
  revert b h; decide

theorem land_128_eq_zero (b : Nat) (h : b < 128) : b &&& 128 = 0 := by
  revert b h; decide

theorem land_128_ne_zero (b : Nat) (h1 : 128 ≤ b) (h2 : b < 256) :
    b &&& 128 ≠ 0 := by
  revert b; decide

/-- Reduction of the source decoder on a short-form header. -/
theorem parse_short (b0 b1 : Nat) (rest : List Nat) (depth : Nat) (offset : Int)
    (h1 : b1 &&& 128 = 0) (h2 : b1 ≤ rest.length) :
    parseASN1Element (b0 :: b1 :: rest) depth offset =
      .ok ({ Depth := depth, Offset := offset, HeaderLen := 2,
             Length := (b1 : Int), Tag := b0 &&& 31,
             Class := (b0 &&& 192) >>> 6,
             IsCompound := decide (b0 &&& 32 ≠ 0) }, 2 + (b1 : Int)) := by
  simp only [parseASN1Element, h1, if_true, List.length_cons]
  rw [if_neg (by push_cast; omega)]

/-! ### C1: the source walkers do not terminate on a crafted length -/

/-- If decoding the element at the current offset succeeds with zero total
bytes (possible only through the signed length overflow) and neither the
OID branch nor the recursion branch applies, the field walk never
advances: it runs out of any amount of fuel. -/
theorem findFieldsLoop_stuck (data : List Nat) (offset : Int)
    (element : ASN1Element)
    (h0 : 0 ≤ offset) (h1 : offset < (data.length : Int))
    (hp : parseASN1Element (data.drop offset.toNat) 0 offset = .ok (element, 0))
    (ht : ¬(element.Tag = 6 ∧ element.Length > 0))
    (hc : ¬(element.IsCompound ∧ element.Length > 0)) :
    ∀ fuel v, findFieldsLoop fuel data offset v = none := by
  intro fuel
  induction fuel with
  | zero => intro v; rfl
  | succ n ih =>
    intro v
    have hoid : oidStep data offset element 0 v = .ok v := by
      simp only [oidStep]; rw [if_neg ht]
    simp only [findFieldsLoop]
    rw [if_pos h1, if_neg (by omega), hp]
    simp only [hoid]
    rw [if_neg hc, add_zero]
    exact ih v

/-- The key-size walk is stuck under the same circumstances. -/
theorem findLastLoop_stuck (data : List Nat) (offset : Int) (depth : Nat)
    (element : ASN1Element)
    (h0 : 0 ≤ offset) (h1 : offset < (data.length : Int))
    (hp : parseASN1Element (data.drop offset.toNat) depth offset =
      .ok (element, 0))
    (hc : ¬(element.IsCompound ∧ element.Length > 0)) :
    ∀ fuel ks last, findLastLoop fuel data offset ks depth last = none := by
  intro fuel
  induction fuel with
  | zero => intro ks last; rfl
  | succ n ih =>
    intro ks last
    simp only [findLastLoop]
    rw [if_pos h1, if_neg (by omega), hp]
    simp only []
    rw [if_neg hc, add_zero]
    exact ih ks element

/-- The content region of `evilFile` after its outer header. -/
theorem evilFile_content :
    (evilFile.drop 4).take 266 = evilInput ++ List.replicate 256 0 := by
  decide

/-- The field walk is stuck on the content of `evilFile` as well. -/
theorem findFieldsLoop_stuck_evilContent :
    ∀ fuel v,
      findFieldsLoop fuel (evilInput ++ List.replicate 256 0) 0 v = none := by
  have := findFieldsLoop_stuck (evilInput ++ List.replicate 256 0) 0
    { Depth := 0, Offset := 0, HeaderLen := 10, Length := -10, Tag := 16,
      Class := 0, IsCompound := true }
    (by decide) (by decide) (by decide) (by decide) (by decide)
  exact this

/-- Validating the bytes unmarshalled from `evilFile` never terminates. -/
theorem validate_evilFile_stuck :
    ∀ fuel, validateSignatureFields fuel evilFile = none := by
  intro fuel
  cases fuel with
  | zero => rfl
  | succ n =>
    have hparse : parseASN1Element (evilFile.drop (Int.toNat 0)) 0 0 =
        .ok ({ Depth := 0, Offset := 0, HeaderLen := 4, Length := 266,
               Tag := 16, Class := 0, IsCompound := true }, 270) := by decide
    have hoid : oidStep evilFile 0
        { Depth := 0, Offset := 0, HeaderLen := 4, Length := 266,
          Tag := 16, Class := 0, IsCompound := true } 270 emptyValidation =
        .ok emptyValidation := by decide
    simp only [validateSignatureFields, findFieldsLoop]
    rw [if_pos (by decide), if_neg (by decide)]
    simp only [hparse, hoid]
    rw [if_pos (by decide), if_pos (by decide)]
    rw [show (evilFile.drop (Int.toNat 0 + 4)).take (Int.toNat 266) =
      evilInput ++ List.replicate 256 0 from by decide]
    rw [findFieldsLoop_stuck_evilContent n emptyValidation]

/-- One backward-scan step over a non-marker position. -/
theorem findLoop_skip (um : List Nat → Option RawValue) (fuel : Nat)
    (data : List Nat) (j : Nat)
    (h : ¬(data.getD j 0 = 0x30 ∧ data.getD (j + 1) 0 = 0x82)) :
    findLoop um fuel data (j + 1) = findLoop um fuel data j := by
  simp only [findLoop]
  rw [if_neg h]

/-- Skipping a whole marker-free range of the backward scan. -/
theorem findLoop_skip_range (um : List Nat → Option RawValue) (fuel : Nat)
    (data : List Nat) (a : Nat) :
    ∀ b, a ≤ b →
      (∀ k, k < b → a ≤ k →
        ¬(data.getD k 0 = 0x30 ∧ data.getD (k + 1) 0 = 0x82)) →
      findLoop um fuel data b = findLoop um fuel data a := by
  intro b
  induction b with
  | zero =>
    intro hab _
    have ha : a = 0 := by omega
    rw [ha]
  | succ c ih =>
    intro hab hmk
    rcases Nat.lt_or_ge a (c + 1) with hlt | hge
    · have hac : a ≤ c := by omega
      rw [findLoop_skip um fuel data c (hmk c (by omega) hac)]
      exact ih hac (fun k hk1 hk2 => hmk k (by omega) hk2)
    · have : a = c + 1 := by omega
      rw [this]

/-- C1: the claim that every core call terminates on every input is wrong
on this code.  On the ten-byte input `30 88 FF FF FF FF FF FF FF F6` the
long-form length accumulation overflows the signed 64-bit `int` to `-10`,
`parseASN1Element` then returns `totalBytes = 10 + (-10) = 0` without an
error, and every walker that adds `totalBytes` to its offset loops forever:
`findFieldsInASN1`, `validateSignatureFields`, `findLastOctetString`,
`calculateKeySize`, and — on a 270-byte file whose unmarshalled SEQUENCE
contains those ten bytes — `FindValidSignature` itself never returns
(`none` for every fuel bound is non-termination). -/
theorem claim1_nontermination :
    (∀ fuel v, findFieldsLoop fuel evilInput 0 v = none) ∧
    (∀ fuel, validateSignatureFields fuel evilInput = none) ∧
    (∀ fuel ks last, findLastLoop fuel evilInput 0 ks 0 last = none) ∧
    (∀ fuel, calculateKeySize fuel evilInput = none) ∧
    (∀ fuel, findValidSignature goUnmarshalRaw fuel evilFile = none) := by
  have hA : ∀ fuel v, findFieldsLoop fuel evilInput 0 v = none :=
    findFieldsLoop_stuck evilInput 0
      { Depth := 0, Offset := 0, HeaderLen := 10, Length := -10, Tag := 16,
        Class := 0, IsCompound := true }
      (by decide) (by decide) (by decide) (by decide) (by decide)
  have hC : ∀ fuel ks last, findLastLoop fuel evilInput 0 ks 0 last = none :=
    findLastLoop_stuck evilInput 0 0
      { Depth := 0, Offset := 0, HeaderLen := 10, Length := -10, Tag := 16,
        Class := 0, IsCompound := true }
      (by decide) (by decide) (by decide) (by decide)
  refine ⟨hA, fun fuel => hA fuel emptyValidation, hC, ?_, ?_⟩
  · intro fuel
    cases fuel with
    | zero => rfl
    | succ n =>
      simp only [calculateKeySize, findLastOctetString]
      rw [hC n 0 zeroElement]
  · intro fuel
    have h269 : findValidSignature goUnmarshalRaw fuel evilFile =
        findLoop goUnmarshalRaw fuel evilFile 269 := by
      simp only [findValidSignature,
        show evilFile.length - 1 = 269 from by decide]
    rw [h269,
      findLoop_skip_range goUnmarshalRaw fuel evilFile 1 269 (by omega)
        (by decide)]
    simp only [findLoop]
    rw [if_pos (by decide)]
    simp only [show goUnmarshalRaw (evilFile.drop 0) = some ⟨evilFile⟩ from
      by decide]
    simp only [validate_evilFile_stuck fuel]

/-- C6: the claim that a long-form length overflow fails with
`LengthOverflow` and that every successfully decoded element has a
non-negative length is wrong on this code: on
`30 88 FF FF FF FF FF FF FF F6` (stated big-endian length `2 ^ 64 - 10`)
the decode succeeds, with `Length = -10` and zero total bytes. -/
theorem claim6_overflow_accepted :
    parseASN1Element evilInput 0 0 =
      .ok ({ Depth := 0, Offset := 0, HeaderLen := 10, Length := -10,
             Tag := 16, Class := 0, IsCompound := true }, 0) ∧
    accumLen [0xFF, 0xFF, 0xFF, 0xFF, 0xFF, 0xFF, 0xFF, 0xF6] = -10 := by
  exact ⟨by decide, by decide⟩

/-- C5 counterexample: a window whose first byte has low 5 bits 31 does
not fail: the decoder accepts it and reports tag number 31. -/
theorem claim5_counterexample :
    parseASN1Element [0x1F, 0x00] 0 0 =
      .ok ({ Depth := 0, Offset := 0, HeaderLen := 2, Length := 0,
             Tag := 31, Class := 0, IsCompound := false }, 2) := by
  decide

/-- C5 amended: for every window whose first byte has its low 5 bits equal
to 31, decoding one TLV header (with any well-formed remainder, here a
zero length byte) succeeds, and the tag number is taken to be the literal
value 31; there is no `UnsupportedLongFormTag` failure in the decoder. -/
theorem claim5_amended (b0 : Nat) (rest : List Nat) (depth : Nat)
    (offset : Int) (h : b0 &&& 0x1F = 31) :
    ∃ e : ASN1Element, ∃ n : Int,
      parseASN1Element (b0 :: 0 :: rest) depth offset = .ok (e, n) ∧
        e.Tag = 31 ∧ e.HeaderLen = 2 ∧ e.Length = 0 := by
  refine ⟨_, _, parse_short b0 0 rest depth offset (by decide)
    (Nat.zero_le _), h, rfl, rfl⟩

/-- C5 witness: the amended statement at the concrete window `1F 00`. -/
theorem claim5_witness :
    (0x1F &&& 0x1F = 31) ∧
    ∃ e : ASN1Element, ∃ n : Int,
      parseASN1Element [0x1F, 0x00] 0 0 = .ok (e, n) ∧
        e.Tag = 31 ∧ e.HeaderLen = 2 ∧ e.Length = 0 :=
  ⟨by decide, claim5_amended 0x1F [] 0 0 (by decide)⟩

/-- C7 counterexample: an OID content string whose final base-128 chunk
never terminates (last byte `0x84` has the continuation bit set) does not
fail with `MalformedOid`: `parseOID` returns a string, and the partial arc
(here `4`) is emitted, not discarded. -/
theorem claim7_counterexample : parseOID [0x55, 0x84] = "2.5.4" := by
  decide

/-- C7 amended: for every OID content whose final base-128 chunk has the
continuation bit set on its last byte, decoding does not fail: the
accumulation stops at end-of-content without reading further, and the
partial arc is emitted as the final arc of the output (shown here for a
single unterminated chunk byte `0x80 + v` after the `2.5` prefix byte:
the partial arc is exactly `v`). -/
theorem claim7_amended (v : Nat) (h : v < 128) :
    parseOIDChunk [0x80 + v] 0 = (v, []) ∧
    parseOIDArcs [0x55, 0x80 + v] = ["2", "5", toString v] := by
  have hv : (0x80 + v) &&& 127 = v := by
    rw [land_127_eq (0x80 + v) (by omega)]
    omega
  have hv2 : ¬((0x80 + v) &&& 128 = 0) :=
    land_128_ne_zero (0x80 + v) (by omega) (by omega)
  have hchunk : parseOIDChunk [0x80 + v] 0 = (v, []) := by
    simp only [parseOIDChunk, hv]
    rw [if_neg hv2]
    simp [parseOIDChunk]
  refine ⟨hchunk, ?_⟩
  simp only [parseOIDArcs, parseOIDRest, parseOIDRestAux, hchunk,
    List.length_cons, List.length_nil]
  rw [show toString ((0x55 : Nat) / 40) = "2" from rfl,
    show toString ((0x55 : Nat) % 40) = "5" from rfl]

/-- C7 witness: the amended statement at `55 84`: the unterminated chunk
value 4 is kept as the final arc. -/
theorem claim7_witness :
    parseOIDChunk [0x84] 0 = (4, []) ∧
    parseOIDArcs [0x55, 0x84] = ["2", "5", "4"] :=
  claim7_amended 4 (by decide)

/-- C4 counterexample: a buffer whose last element in document order is an
INTEGER (not an OCTET STRING) does not yield 0: the nested region
`SEQUENCE { OCTET STRING (2 bytes) }` ends in an OCTET STRING, and that
inner region-final write survives, so
`SEQUENCE { OCTET STRING (2) } INTEGER (1)` yields 16, not 0. -/
theorem claim4_counterexample :
    calculateKeySize 10 [0x30, 4, 4, 2, 0xAA, 0xBB, 2, 1, 5] =
      some (.ok 16) := by
  decide

/-- Chaining defaults through an appended write list: the last element of
the concatenation is the last element of the second list, falling back to
the last element of the first. -/
theorem getLastD_append_chain (a b : List Int) (d : Int) :
    (a ++ b).getLastD d = b.getLastD (a.getLastD d) := by
  induction a generalizing d with
  | nil => simp
  | cons y ys ih => simp only [List.cons_append, List.getLastD_cons, ih]

/-- Refinement: the key-size walk equals taking the last entry of the
recorded write list, with the incoming key size as the default when the
list is empty (the two walkers have identical control flow). -/
theorem findLast_eq_writes (fuel : Nat) :
    (∀ (data : List Nat) (ks : Int) (depth : Nat),
      findLastOctetString fuel data ks depth =
        (keyWrites fuel data depth).map
          (GoOutcome.map (fun ws => ws.getLastD ks))) ∧
    (∀ (data : List Nat) (offset ks : Int) (depth : Nat)
        (last : ASN1Element),
      findLastLoop fuel data offset ks depth last =
        (keyWritesLoop fuel data offset depth last).map
          (GoOutcome.map (fun p => (p.1.getLastD ks, p.2)))) := by
  induction fuel with
  | zero => exact ⟨fun _ _ _ => rfl, fun _ _ _ _ _ => rfl⟩
  | succ n ih =>
    obtain ⟨ihW, ihL⟩ := ih
    constructor
    · intro data ks depth
      simp only [findLastOctetString, keyWrites]
      rw [ihL data 0 ks depth zeroElement]
      cases hw : keyWritesLoop n data 0 depth zeroElement with
      | none => rfl
      | some o =>
        cases o with
        | crashed => rfl
        | ok p =>
          obtain ⟨ws, le⟩ := p
          simp only [Option.map_some', GoOutcome.map]
          by_cases ht : le.Tag = 4
          · rw [if_pos ht, if_pos ht]
            simp [GoOutcome.map, getLastD_append_chain]
          · rw [if_neg ht, if_neg ht]
            simp [GoOutcome.map]
    · intro data offset ks depth last
      simp only [findLastLoop, keyWritesLoop]
      by_cases h1 : offset < (data.length : Int)
      case neg =>
        rw [if_neg h1, if_neg h1]
        simp [GoOutcome.map]
      case pos =>
        rw [if_pos h1, if_pos h1]
        by_cases h2 : offset < 0
        case pos => rw [if_pos h2, if_pos h2]; rfl
        case neg =>
          rw [if_neg h2, if_neg h2]
          cases hp : parseASN1Element (data.drop offset.toNat) depth offset with
          | error e => simp [GoOutcome.map]
          | ok pr =>
            obtain ⟨element, bytesRead⟩ := pr
            dsimp only
            by_cases hcomp : element.IsCompound ∧ element.Length > 0
            case neg =>
              rw [if_neg hcomp, if_neg hcomp]
              exact ihL data (offset + bytesRead) ks depth element
            case pos =>
              rw [if_pos hcomp, if_pos hcomp]
              by_cases hg : (element.HeaderLen : Int) < bytesRead ∧
                  element.Length ≤ (data.length : Int) - offset -
                    (element.HeaderLen : Int)
              case neg =>
                rw [if_neg hg, if_neg hg]
                exact ihL data (offset + bytesRead) ks depth element
              case pos =>
                rw [if_pos hg, if_pos hg]
                rw [ihW ((data.drop (offset.toNat + element.HeaderLen)).take
                  element.Length.toNat) ks (depth + 1)]
                cases hw1 : keyWrites n
                    ((data.drop (offset.toNat + element.HeaderLen)).take
                      element.Length.toNat) (depth + 1) with
                | none => rfl
                | some o1 =>
                  cases o1 with
                  | crashed => rfl
                  | ok ws1 =>
                    simp only [Option.map_some', GoOutcome.map]
                    rw [ihL data (offset + bytesRead) (ws1.getLastD ks)
                      depth element]
                    cases hw2 : keyWritesLoop n data (offset + bytesRead)
                        depth element with
                    | none => rfl
                    | some o2 =>
                      cases o2 with
                      | crashed => rfl
                      | ok p2 =>
                        obtain ⟨ws2, le2⟩ := p2
                        simp only [Option.map_some', GoOutcome.map,
                          Option.some.injEq, GoOutcome.ok.injEq,
                          Prod.mk.injEq]
                        exact ⟨(getLastD_append_chain ws1 ws2 ks).symm, trivial⟩

/-- C4 amended: `calculateKeySize` overwrites the key size at the end of
every decoded region whose last element has tag OCTET STRING (regions
complete in post-order), and returns the final value: in general the
result is the last entry of the recorded write list, and 0 when no such
write occurred.  When the whole buffer is `SEQUENCE { OCTET STRING of n
bytes }` the result is `8 * n` (256 bytes, with both lengths in long
form, gives 2048); a buffer with no OCTET STRING write at all (such as a
single INTEGER) gives 0; but a structure whose last document-order
element is not an OCTET STRING may still yield the nested region's value
rather than 0, as in `SEQUENCE { OCTET STRING (2) } INTEGER (1)`, which
yields 16 for any content bytes. -/
theorem claim4_amended :
    (∀ (fuel : Nat) (data : List Nat) (r : Int) (ws : List Int),
      calculateKeySize fuel data = some (.ok r) →
      keyWrites fuel data 0 = some (.ok ws) →
      r = ws.getLastD 0) ∧
    (∀ n : Nat, n ≤ 125 →
      calculateKeySize 10 (seqOct n) = some (.ok (8 * (n : Int)))) ∧
    calculateKeySize 10 seqOct256 = some (.ok 2048) ∧
    (∀ a : Nat, calculateKeySize 10 [2, 1, a] = some (.ok 0)) ∧
    (∀ a b : Nat,
      calculateKeySize 10 [0x30, 4, 4, 2, a, b, 2, 1, 5] = some (.ok 16)) := by
  refine ⟨?_, by decide, by decide, fun a => rfl, fun a b => rfl⟩
  intro fuel data r ws hr hw
  have h := (findLast_eq_writes fuel).1 data 0 0
  rw [calculateKeySize] at hr
  rw [h, hw] at hr
  simp only [Option.map_some', GoOutcome.map, Option.some.injEq,
    GoOutcome.ok.injEq] at hr
  exact hr.symm

/-- C4 witness: the amended statement exercised concretely: the short-form
family at `n = 7` (yielding 56), and the general last-write law at the
counterexample shape, whose single recorded write 16 is the result. -/
theorem claim4_witness :
    ((7 : Nat) ≤ 125 ∧ calculateKeySize 10 (seqOct 7) = some (.ok 56)) ∧
    (calculateKeySize 10 [0x30, 4, 4, 2, 0, 0, 2, 1, 5] = some (.ok 16) ∧
      keyWrites 10 [0x30, 4, 4, 2, 0, 0, 2, 1, 5] 0 = some (.ok [16]) ∧
      (16 : Int) = ([16] : List Int).getLastD 0) := by
  refine ⟨⟨by decide, ?_⟩, by decide, by decide, ?_⟩
  · have h := claim4_amended.2.1 7 (by decide)
    simpa using h
  · exact claim4_amended.1 10 [0x30, 4, 4, 2, 0, 0, 2, 1, 5] 16 [16]
      (by decide) (by decide)

/-- C2 (modelled from the spec, see `parseElemD` and `walkLoop`): the
depth-aware decoder fails with `RecursionLimitExceeded` on every
constructed element at depth at least `MaxRecursionDepth = 50`; a
structure nested to exactly `MaxRecursionDepth` walks with no errors, one
nested to `MaxRecursionDepth + 1` is rejected for that sub-tree only, and
a sibling after the offending sub-tree is still decoded (the region
completes with the sub-tree's single error recorded). -/
theorem claim2_depth_limit :
    (∀ (b0 b1 : Nat) (rest : List Nat) (depth : Nat),
        MaxRecursionDepth ≤ depth → b0 % 32 ≠ 31 → b0 / 32 % 2 = 1 →
        parseElemD (b0 :: b1 :: rest) depth =
          .error .recursionLimitExceeded) ∧
    walkASN1Region 300 (nestedSeq MaxRecursionDepth) 0 = some (1, []) ∧
    walkASN1Region 300 (nestedSeq (MaxRecursionDepth + 1)) 0 =
      some (1, [.recursionLimitExceeded]) ∧
    walkASN1Region 300 (nestedSeq (MaxRecursionDepth + 1) ++ [5, 0]) 0 =
      some (2, [.recursionLimitExceeded]) := by
  refine ⟨?_, by decide, by decide, by decide⟩
  intro b0 b1 rest depth hd h31 hcon
  simp only [parseElemD]
  rw [if_neg h31, if_pos ⟨by simpa using hcon, hd⟩]

/-- C2 witness: the depth-limit failure at the concrete input of the
repository's own test (`parseASN1Element` on a small SEQUENCE at depth
`MaxRecursionDepth + 1` must error). -/
theorem claim2_witness :
    MaxRecursionDepth ≤ MaxRecursionDepth + 1 ∧
    parseElemD [0x30, 0x02, 0x01, 0x01] (MaxRecursionDepth + 1) =
      .error .recursionLimitExceeded :=
  ⟨by decide,
    claim2_depth_limit.1 0x30 0x02 [0x01, 0x01] (MaxRecursionDepth + 1)
      (by decide) (by decide) (by decide)⟩

/-- Reduction of the modelled decoder on one primitive NULL element. -/
theorem parseElemD_null (rest : List Nat) (depth : Nat) :
    parseElemD (5 :: 0 :: rest) depth = .ok (⟨0, false, 5, 0, 2⟩, 2) := by
  simp [parseElemD]

/-- C8 (modelled from the spec, see `walkLoop`): within a single region the
walk decodes at most `MaxElementsPerLevel = 10000` elements: a flat region
of `n` NULL elements walks with no errors when `n` (plus the elements
already counted) stays within the limit, and otherwise stops after exactly
`MaxElementsPerLevel` decoded elements with a `TooManyElements` error,
keeping the already-decoded count; in particular 10000 siblings succeed
and 10001 abort. -/
theorem claim8_element_limit :
    (∀ (n c fuel : Nat), n < fuel → c ≤ MaxElementsPerLevel →
      walkLoop fuel (nullElems n) 0 c =
        if c + n ≤ MaxElementsPerLevel then some (c + n, [])
        else some (MaxElementsPerLevel, [DecodeErr.tooManyElements])) ∧
    walkASN1Region 10002 (nullElems MaxElementsPerLevel) 0 =
      some (MaxElementsPerLevel, []) ∧
    walkASN1Region 10003 (nullElems (MaxElementsPerLevel + 1)) 0 =
      some (MaxElementsPerLevel, [DecodeErr.tooManyElements]) := by
  have hmain : ∀ (n c fuel : Nat), n < fuel → c ≤ MaxElementsPerLevel →
      walkLoop fuel (nullElems n) 0 c =
        if c + n ≤ MaxElementsPerLevel then some (c + n, [])
        else some (MaxElementsPerLevel, [DecodeErr.tooManyElements]) := by
    intro n
    induction n with
    | zero =>
      intro c fuel hf hc
      cases fuel with
      | zero => omega
      | succ f =>
        simp only [nullElems, walkLoop]
        rw [if_pos (by omega)]
        simp
    | succ n ih =>
      intro c fuel hf hc
      cases fuel with
      | zero => omega
      | succ f =>
        simp only [nullElems, walkLoop]
        by_cases hcm : MaxElementsPerLevel ≤ c
        · have hceq : c = MaxElementsPerLevel := by omega
          rw [if_pos hcm, if_neg (by omega), hceq]
        · rw [if_neg hcm]
          simp only [parseElemD_null]
          rw [if_neg (by simp)]
          rw [show (5 :: 0 :: nullElems n).drop 2 = nullElems n from rfl]
          rw [ih (c + 1) f (by omega) (by omega)]
          by_cases hle : c + (n + 1) ≤ MaxElementsPerLevel
          · rw [if_pos (by omega), if_pos hle]
            simp only [List.nil_append]
            congr 2
            omega
          · rw [if_neg (by omega), if_neg hle]
            simp
  refine ⟨hmain, ?_, ?_⟩
  · have h := hmain MaxElementsPerLevel 0 10002 (by decide) (by omega)
    rw [walkASN1Region, h, if_pos (by omega), Nat.zero_add]
  · have h := hmain (MaxElementsPerLevel + 1) 0 10003 (by decide) (by omega)
    rw [walkASN1Region, h, if_neg (by omega)]

/-- C8 witness: the per-region count formula at a small concrete region
(three NULL siblings, starting count 0, all within the limit). -/
theorem claim8_witness :
    (3 : Nat) < 10 ∧ (0 : Nat) ≤ MaxElementsPerLevel ∧
    walkLoop 10 (nullElems 3) 0 0 = some (3, []) := by
  refine ⟨by decide, by decide, ?_⟩
  rw [claim8_element_limit.1 3 0 10 (by decide) (by decide)]
  decide

/-- The OID-handling step records the same validation that folding its
emitted events over the incoming validation produces. -/
theorem oidStep_eq_events (data : List Nat) (offset : Int)
    (element : ASN1Element) (bytesRead : Int) (v : SignatureValidation) :
    oidStep data offset element bytesRead v =
      (oidStepEvents data offset element bytesRead).map (foldPair v) := by
  simp only [oidStep, oidStepEvents]
  repeat' split
  all_goals simp [GoOutcome.map, foldPair]

/-- Refinement: the field walk equals folding the recorded event list over
the incoming validation (the two walkers have identical control flow). -/
theorem findFields_eq_events (fuel : Nat) :
    ∀ (data : List Nat) (offset : Int) (v : SignatureValidation),
      findFieldsLoop fuel data offset v =
        (fieldEventsLoop fuel data offset).map
          (fun o => o.map (foldPair v)) := by
  induction fuel with
  | zero => intro data offset v; rfl
  | succ n ih =>
    intro data offset v
    simp only [findFieldsLoop, fieldEventsLoop]
    by_cases h1 : offset < (data.length : Int)
    case neg =>
      rw [if_neg h1, if_neg h1]
      simp [GoOutcome.map, foldPair]
    case pos =>
      rw [if_pos h1, if_pos h1]
      by_cases h2 : offset < 0
      case pos => rw [if_pos h2, if_pos h2]; rfl
      case neg =>
        rw [if_neg h2, if_neg h2]
        cases hp : parseASN1Element (data.drop offset.toNat) 0 offset with
        | error e => simp [GoOutcome.map, foldPair]
        | ok pr =>
          obtain ⟨element, bytesRead⟩ := pr
          dsimp only
          rw [oidStep_eq_events]
          cases ho : oidStepEvents data offset element bytesRead with
          | crashed => simp [GoOutcome.map]
          | ok evs1 =>
            simp only [GoOutcome.map]
            by_cases hcomp : element.IsCompound ∧ element.Length > 0
            case neg =>
              rw [if_neg hcomp, if_neg hcomp]
              rw [ih data (offset + bytesRead) (foldPair v evs1)]
              cases he3 : fieldEventsLoop n data (offset + bytesRead) with
              | none => rfl
              | some o =>
                cases o with
                | crashed => rfl
                | ok evs3 =>
                  simp [GoOutcome.map, foldPair, List.foldl_append]
            case pos =>
              rw [if_pos hcomp, if_pos hcomp]
              by_cases hg : (element.HeaderLen : Int) < bytesRead ∧
                  element.Length ≤ (data.length : Int) - offset -
                    (element.HeaderLen : Int)
              case neg =>
                rw [if_neg hg, if_neg hg]
                rw [ih data (offset + bytesRead) (foldPair v evs1)]
                cases he3 : fieldEventsLoop n data (offset + bytesRead) with
                | none => rfl
                | some o =>
                  cases o with
                  | crashed => rfl
                  | ok evs3 =>
                    simp [GoOutcome.map, foldPair, List.foldl_append]
              case pos =>
                rw [if_pos hg, if_pos hg]
                rw [ih ((data.drop (offset.toNat + element.HeaderLen)).take
                  element.Length.toNat) 0 (foldPair v evs1)]
                cases he2 : fieldEventsLoop n
                    ((data.drop (offset.toNat + element.HeaderLen)).take
                      element.Length.toNat) 0 with
                | none => rfl
                | some o2 =>
                  cases o2 with
                  | crashed => rfl
                  | ok evs2 =>
                    simp only [Option.map_some', GoOutcome.map]
                    rw [ih data (offset + bytesRead)
                      (foldPair (foldPair v evs1) evs2)]
                    cases he3 : fieldEventsLoop n data (offset + bytesRead) with
                    | none => rfl
                    | some o3 =>
                      cases o3 with
                      | crashed => rfl
                      | ok evs3 =>
                        simp [GoOutcome.map, foldPair, List.foldl_append]

/-- Folding the last-value accumulator from any start. -/
theorem foldl_lastValue (oid : String) :
    ∀ (evs : List (String × List Nat)) (acc : Option (List Nat)),
      List.foldl (fun acc p => if p.1 = oid then some p.2 else acc) acc evs =
        (match lastValue oid evs with
         | some x => some x
         | none => acc) := by
  intro evs
  induction evs with
  | nil => intro acc; rfl
  | cons p evs ih =>
    intro acc
    simp only [lastValue, List.foldl_cons] at ih ⊢
    rw [ih, ih (if p.1 = oid then some p.2 else none)]
    cases hl : List.foldl
        (fun acc p => if p.1 = oid then some p.2 else acc) none evs with
    | none => by_cases hpo : p.1 = oid <;> simp [hpo]
    | some x => rfl

/-- How one `setValidationField` call changes a projected field. -/
theorem getField_set (oid p1 : String) (p2 : List Nat)
    (v : SignatureValidation)
    (h : oid = OIDCommonName ∨ oid = OIDCountryName ∨
      oid = OIDLocalityName ∨ oid = OIDOrganizationName ∨
      oid = OIDEmailAddress) :
    getField oid (setValidationField v p1 p2) =
      if p1 = oid then (true, p2) else getField oid v := by
  rcases h with h | h | h | h | h <;> subst h <;>
    simp only [getField, setValidationField, OIDCommonName, OIDCountryName,
      OIDLocalityName, OIDOrganizationName, OIDEmailAddress] <;>
    split_ifs <;> simp_all

/-- Folding events: each projected field ends as the last event for its
OID, or stays at its incoming value when no event matches. -/
theorem getField_foldPair (oid : String)
    (h : oid = OIDCommonName ∨ oid = OIDCountryName ∨
      oid = OIDLocalityName ∨ oid = OIDOrganizationName ∨
      oid = OIDEmailAddress) :
    ∀ (evs : List (String × List Nat)) (v : SignatureValidation),
      getField oid (foldPair v evs) =
        (match lastValue oid evs with
         | some val => (true, val)
         | none => getField oid v) := by
  intro evs
  induction evs with
  | nil => intro v; rfl
  | cons p evs ih =>
    intro v
    simp only [foldPair, List.foldl_cons] at ih ⊢
    rw [ih (setValidationField v p.1 p.2)]
    have hl : lastValue oid (p :: evs) =
        (match lastValue oid evs with
         | some x => some x
         | none => if p.1 = oid then some p.2 else none) := by
      simp only [lastValue, List.foldl_cons]
      rw [foldl_lastValue oid evs (if p.1 = oid then some p.2 else none)]
      rfl
    rw [hl, getField_set oid p.1 p.2 v h]
    cases lastValue oid evs with
    | none => by_cases hpo : p.1 = oid <;> simp [hpo]
    | some x => rfl

/-- The five projected fields of the zero validation. -/
theorem getField_empty (oid : String)
    (h : oid = OIDCommonName ∨ oid = OIDCountryName ∨
      oid = OIDLocalityName ∨ oid = OIDOrganizationName ∨
      oid = OIDEmailAddress) :
    getField oid emptyValidation = (false, []) := by
  rcases h with h | h | h | h | h <;> subst h <;> decide

/-- C9: when the validation walk completes, each of the five recognized
attributes holds exactly the value of the last recorded occurrence of its
OID in the depth-first document-order traversal (the event list), so later
occurrences overwrite earlier ones; an attribute with no occurrence stays
absent. -/
theorem claim9_last_wins (fuel : Nat) (data : List Nat)
    (v : SignatureValidation) (evs : List (String × List Nat)) (oid : String)
    (hv : validateSignatureFields fuel data = some (.ok v))
    (he : fieldEvents fuel data = some (.ok evs))
    (hoid : oid = OIDCommonName ∨ oid = OIDCountryName ∨
      oid = OIDLocalityName ∨ oid = OIDOrganizationName ∨
      oid = OIDEmailAddress) :
    getField oid v =
      (match lastValue oid evs with
       | some val => (true, val)
       | none => (false, [])) := by
  have hr := findFields_eq_events fuel data 0 emptyValidation
  rw [validateSignatureFields] at hv
  rw [fieldEvents] at he
  rw [he] at hr
  rw [hr] at hv
  simp only [Option.map_some, GoOutcome.map] at hv
  have hveq : v = foldPair emptyValidation evs := by
    injection hv with hv1
    injection hv1 with hv2
    exact hv2.symm
  rw [hveq, getField_foldPair oid hoid evs emptyValidation,
    getField_empty oid hoid]

/-- C9 witness: on a buffer with the common-name OID twice (values `[65]`
then `[66]`), the walk records both occurrences and the validation holds
the second value. -/
theorem claim9_witness :
    getField OIDCommonName dupValidation =
      (match lastValue OIDCommonName dupEvents with
       | some val => (true, val)
       | none => (false, [])) ∧
    getField OIDCommonName dupValidation = (true, [66]) :=
  ⟨claim9_last_wins 50 dupCNData dupValidation dupEvents OIDCommonName
      (by decide) (by decide) (Or.inl rfl),
    by decide⟩

/-- Unfolding the acceptance condition into its three conjuncts. -/
theorem acceptsB_iff (um : List Nat → Option RawValue) (fuel : Nat)
    (data : List Nat) (i : Nat) :
    acceptsB um fuel data i = true ↔
      ((data.getD i 0 = 0x30 ∧ data.getD (i + 1) 0 = 0x82) ∧
        ∃ raw, um (data.drop i) = some raw ∧
          ∃ v, validateSignatureFields fuel raw.fullBytes = some (.ok v) ∧
            v.IsValid = true) := by
  simp only [acceptsB, Bool.and_eq_true, decide_eq_true_eq]
  constructor
  · rintro ⟨hm, hrest⟩
    refine ⟨hm, ?_⟩
    cases hu : um (data.drop i) with
    | none => rw [hu] at hrest; simp at hrest
    | some raw =>
      rw [hu] at hrest
      dsimp only at hrest
      cases hv : validateSignatureFields fuel raw.fullBytes with
      | none => rw [hv] at hrest; simp at hrest
      | some o =>
        cases o with
        | crashed => rw [hv] at hrest; simp at hrest
        | ok v =>
          rw [hv] at hrest
          exact ⟨raw, rfl, v, hv, hrest⟩
  · rintro ⟨hm, raw, hu, v, hv, hval⟩
    refine ⟨hm, ?_⟩
    rw [hu]
    dsimp only
    rw [hv]
    exact hval

/-- No marker, no acceptance. -/
theorem acceptsB_of_no_marker (um : List Nat → Option RawValue) (fuel : Nat)
    (data : List Nat) (i : Nat)
    (h : ¬(data.getD i 0 = 0x30 ∧ data.getD (i + 1) 0 = 0x82)) :
    acceptsB um fuel data i = false := by
  simp only [acceptsB]
  rw [decide_eq_false h]
  simp

/-- No acceptance at or beyond the penultimate byte: the second marker
byte would be read past the end. -/
theorem acceptsB_beyond (um : List Nat → Option RawValue) (fuel : Nat)
    (data : List Nat) (i : Nat) (h : data.length ≤ i + 1) :
    acceptsB um fuel data i = false := by
  apply acceptsB_of_no_marker
  rintro ⟨_, h2⟩
  rw [List.getD_eq_default _ _ (by omega)] at h2
  exact absurd h2 (by decide)

/-- A cleanly-rejected candidate does not change the scan result. -/
theorem findLoop_step_of_rejects (um : List Nat → Option RawValue)
    (fuel : Nat) (data : List Nat) (j : Nat)
    (h : rejectsB um fuel data j = true) :
    findLoop um fuel data (j + 1) = findLoop um fuel data j := by
  simp only [findLoop]
  by_cases hm : data.getD j 0 = 0x30 ∧ data.getD (j + 1) 0 = 0x82
  case neg => rw [if_neg hm]
  case pos =>
    rw [if_pos hm]
    simp only [rejectsB, if_pos hm] at h
    split
    case h_1 => rfl
    case h_2 raw hu =>
      rw [hu] at h
      dsimp only at h
      split
      case h_1 hv => rw [hv] at h; simp at h
      case h_2 hv => rw [hv] at h; simp at h
      case h_3 v hv =>
        rw [hv] at h
        simp only [Bool.not_eq_true'] at h
        rw [if_neg (by simp [h])]

/-- Soundness of the backward scan: a returned offset is below the scan
start, satisfies the acceptance condition, and no higher candidate within
the scanned range is accepted. -/
theorem findLoop_sound (um : List Nat → Option RawValue) (fuel : Nat)
    (data : List Nat) :
    ∀ j raw i, findLoop um fuel data j = some (.ok (.ok (raw, i))) →
      i < j ∧ um (data.drop i) = some raw ∧
        acceptsB um fuel data i = true ∧
        ∀ k, i < k → k < j → acceptsB um fuel data k = false := by
  intro j
  induction j with
  | zero =>
    intro raw i h
    simp only [findLoop] at h
    simp at h
  | succ j ih =>
    intro raw i h
    simp only [findLoop] at h
    by_cases hm : data.getD j 0 = 0x30 ∧ data.getD (j + 1) 0 = 0x82
    case neg =>
      rw [if_neg hm] at h
      obtain ⟨h1, h2, h3, h4⟩ := ih raw i h
      refine ⟨by omega, h2, h3, ?_⟩
      intro k hk1 hk2
      rcases Nat.lt_succ_iff_lt_or_eq.mp hk2 with hk | hk
      · exact h4 k hk1 hk
      · subst hk
        exact acceptsB_of_no_marker um fuel data k hm
    case pos =>
      rw [if_pos hm] at h
      split at h
      case h_1 hu =>
        obtain ⟨h1, h2, h3, h4⟩ := ih raw i h
        refine ⟨by omega, h2, h3, ?_⟩
        intro k hk1 hk2
        rcases Nat.lt_succ_iff_lt_or_eq.mp hk2 with hk | hk
        · exact h4 k hk1 hk
        · subst hk
          simp [acceptsB, hu]
      case h_2 raw2 hu =>
        split at h
        case h_1 hv => simp at h
        case h_2 hv => simp at h
        case h_3 v hv =>
          split at h
          case isTrue hval =>
            simp only [Option.some.injEq, GoOutcome.ok.injEq,
              Except.ok.injEq, Prod.mk.injEq] at h
            obtain ⟨hr, hi⟩ := h
            subst hr
            subst hi
            exact ⟨Nat.lt_succ_self _, hu,
              (acceptsB_iff um fuel data _).mpr ⟨hm, _, hu, v, hv, hval⟩,
              fun k hk1 hk2 => by omega⟩
          case isFalse hval =>
            have hvf : v.IsValid = false := by
              rwa [Bool.not_eq_true] at hval
            obtain ⟨h1, h2, h3, h4⟩ := ih raw i h
            refine ⟨by omega, h2, h3, ?_⟩
            intro k hk1 hk2
            rcases Nat.lt_succ_iff_lt_or_eq.mp hk2 with hk | hk
            · exact h4 k hk1 hk
            · subst hk
              simp [acceptsB, hu, hv, hvf]

/-- Exhaustion of the backward scan: the failure result means no scanned
candidate was accepted. -/
theorem findLoop_exhaust (um : List Nat → Option RawValue) (fuel : Nat)
    (data : List Nat) :
    ∀ j s, findLoop um fuel data j = some (.ok (.error s)) →
      ∀ k, k < j → acceptsB um fuel data k = false := by
  intro j
  induction j with
  | zero => intro s _ k hk; omega
  | succ j ih =>
    intro s h k hk
    simp only [findLoop] at h
    by_cases hm : data.getD j 0 = 0x30 ∧ data.getD (j + 1) 0 = 0x82
    case neg =>
      rw [if_neg hm] at h
      rcases Nat.lt_succ_iff_lt_or_eq.mp hk with hkj | hkj
      · exact ih s h k hkj
      · subst hkj
        exact acceptsB_of_no_marker um fuel data k hm
    case pos =>
      rw [if_pos hm] at h
      split at h
      case h_1 hu =>
        rcases Nat.lt_succ_iff_lt_or_eq.mp hk with hkj | hkj
        · exact ih s h k hkj
        · subst hkj
          simp [acceptsB, hu]
      case h_2 raw2 hu =>
        split at h
        case h_1 hv => simp at h
        case h_2 hv => simp at h
        case h_3 v hv =>
          split at h
          case isTrue hval => simp at h
          case isFalse hval =>
            have hvf : v.IsValid = false := by
              rwa [Bool.not_eq_true] at hval
            rcases Nat.lt_succ_iff_lt_or_eq.mp hk with hkj | hkj
            · exact ih s h k hkj
            · subst hkj
              simp [acceptsB, hu, hv, hvf]

/-- Completeness of the backward scan: an accepted candidate below the
scan start is returned when every higher scanned candidate is cleanly
rejected. -/
theorem findLoop_complete (um : List Nat → Option RawValue) (fuel : Nat)
    (data : List Nat) :
    ∀ j i, i < j → acceptsB um fuel data i = true →
      (∀ k, i < k → k < j → rejectsB um fuel data k = true) →
      ∃ raw, um (data.drop i) = some raw ∧
        findLoop um fuel data j = some (.ok (.ok (raw, i))) := by
  intro j
  induction j with
  | zero => intro i hi; omega
  | succ j ih =>
    intro i hi hacc hrej
    rcases Nat.lt_succ_iff_lt_or_eq.mp hi with hij | hij
    · have hstep := findLoop_step_of_rejects um fuel data j
        (hrej j hij (Nat.lt_succ_self j))
      obtain ⟨raw, h1, h2⟩ := ih i hij hacc
        (fun k hk1 hk2 => hrej k hk1 (by omega))
      exact ⟨raw, h1, by rw [hstep]; exact h2⟩
    · subst hij
      obtain ⟨hm, raw, hu, v, hv, hval⟩ := (acceptsB_iff um fuel data i).mp hacc
      refine ⟨raw, hu, ?_⟩
      simp only [findLoop]
      rw [if_pos hm]
      simp only [hu, hv]
      rw [if_pos hval]

/-- C3: for every buffer (and any unmarshal function), the locator accepts
a candidate offset `i` exactly under the claim's condition: a returned
offset carries the `0x30 0x82` marker, a successful unmarshal and a fully
valid five-attribute validation of the unmarshalled bytes, and no higher
offset is accepted (the scan starts at `len - 2` and runs backward, so the
returned candidate is the rightmost accepted one); the failure result
means no offset at all is accepted; and conversely an accepted candidate
is returned whenever every higher scanned candidate is cleanly rejected
(in particular a decodable structure whose validation is incomplete is
rejected and the search continues past it). -/
theorem claim3_locator_correct (um : List Nat → Option RawValue)
    (fuel : Nat) (data : List Nat) :
    (∀ raw i,
        findValidSignature um fuel data = some (.ok (.ok (raw, i))) →
        i + 2 ≤ data.length ∧
        data.getD i 0 = 0x30 ∧ data.getD (i + 1) 0 = 0x82 ∧
        um (data.drop i) = some raw ∧
        (∃ v, validateSignatureFields fuel raw.fullBytes = some (.ok v) ∧
          v.IsValid = true) ∧
        ∀ k, i < k → acceptsB um fuel data k = false) ∧
    (∀ s, findValidSignature um fuel data = some (.ok (.error s)) →
        ∀ k, acceptsB um fuel data k = false) ∧
    (∀ i, acceptsB um fuel data i = true →
        (∀ k, k < data.length → i < k → rejectsB um fuel data k = true) →
        ∃ raw, um (data.drop i) = some raw ∧
          findValidSignature um fuel data = some (.ok (.ok (raw, i)))) := by
  refine ⟨?_, ?_, ?_⟩
  · intro raw i h
    obtain ⟨h1, h2, h3, h4⟩ :=
      findLoop_sound um fuel data (data.length - 1) raw i h
    obtain ⟨hm, hrest⟩ := (acceptsB_iff um fuel data i).mp h3
    refine ⟨by omega, hm.1, hm.2, h2, ?_, ?_⟩
    · obtain ⟨raw2, hu2, v, hv, hval⟩ := hrest
      rw [h2] at hu2
      injection hu2 with he
      exact ⟨v, by rw [he]; exact hv, hval⟩
    · intro k hk
      by_cases hkrange : k < data.length - 1
      · exact h4 k hk hkrange
      · exact acceptsB_beyond um fuel data k (by omega)
  · intro s h k
    by_cases hkrange : k < data.length - 1
    · exact findLoop_exhaust um fuel data (data.length - 1) s h k hkrange
    · exact acceptsB_beyond um fuel data k (by omega)
  · intro i hacc hrej
    have hi2 : i + 1 < data.length := by
      by_contra hc
      rw [acceptsB_beyond um fuel data i (by omega)] at hacc
      exact absurd hacc (by decide)
    exact findLoop_complete um fuel data (data.length - 1) i (by omega) hacc
      (fun k hk1 hk2 => hrej k (by omega) hk1)

/-- C3 witness: the scan over the valid signature followed by a
structurally decodable decoy with no certificate OIDs rejects the decoy
(offset 261) and accepts the signature at offset 0. -/
theorem claim3_witness :
    findValidSignature goUnmarshalRaw 50 certDecoyFile =
      some (.ok (.ok (⟨certFile⟩, 0))) := by
  obtain ⟨raw, hum, hfind⟩ :=
    (claim3_locator_correct goUnmarshalRaw 50 certDecoyFile).2.2 0
      (by decide) (by decide)
  rw [List.drop_zero] at hum
  rw [show goUnmarshalRaw certDecoyFile = some ⟨certFile⟩ from by decide]
    at hum
  injection hum with he
  rw [he]
  exact hfind

/-- The modelled standard-library unmarshal parses a prefix of its input:
a success is preserved by appending arbitrary bytes, with the same
`FullBytes`. -/
theorem goUnmarshalRaw_prefix (b : List Nat) (raw : RawValue)
    (h : goUnmarshalRaw b = some raw) (t : List Nat) :
    goUnmarshalRaw (b ++ t) = some raw := by
  cases b with
  | nil => simp [goUnmarshalRaw] at h
  | cons b0 b' =>
    cases b' with
    | nil => simp [goUnmarshalRaw] at h
    | cons b1 rest =>
      have hc : (b0 :: b1 :: rest) ++ t = b0 :: b1 :: (rest ++ t) := by simp
      rw [hc]
      simp only [goUnmarshalRaw] at h ⊢
      by_cases htag : b0 &&& 0x1F = 0x1F
      · rw [if_pos htag] at h
        exact absurd h (by simp)
      · rw [if_neg htag] at h ⊢
        by_cases hshort : b1 &&& 0x80 = 0
        · rw [if_pos hshort] at h ⊢
          by_cases hlen : b1 &&& 0x7F > rest.length
          · rw [if_pos hlen] at h
            exact absurd h (by simp)
          · rw [if_neg hlen] at h
            rw [if_neg (by simp only [List.length_append]; omega)]
            rw [show b0 :: b1 :: (rest ++ t) = (b0 :: b1 :: rest) ++ t from
              by simp]
            rw [List.take_append_of_le_length (by simp; omega)]
            exact h
        · rw [if_neg hshort] at h ⊢
          by_cases hz : b1 &&& 0x7F = 0
          · rw [if_pos hz] at h
            exact absurd h (by simp)
          · rw [if_neg hz] at h ⊢
            by_cases htr : rest.length < b1 &&& 0x7F
            · rw [if_pos htr] at h
              exact absurd h (by simp)
            · rw [if_neg htr] at h
              rw [if_neg (by simp only [List.length_append]; omega)]
              rw [List.take_append_of_le_length (by omega)]
              cases hg : goLenOctets (rest.take (b1 &&& 0x7F)) 0 with
              | none => rw [hg] at h; exact absurd h (by simp)
              | some length =>
                rw [hg] at h
                dsimp only at h ⊢
                by_cases hmin : length < 0x80
                · rw [if_pos hmin] at h
                  exact absurd h (by simp)
                · rw [if_neg hmin] at h ⊢
                  by_cases hov : length > rest.length - (b1 &&& 0x7F)
                  · rw [if_pos hov] at h
                    exact absurd h (by simp)
                  · rw [if_neg hov] at h
                    rw [if_neg (by simp only [List.length_append]; omega)]
                    rw [show b0 :: b1 :: (rest ++ t) =
                      (b0 :: b1 :: rest) ++ t from by simp]
                    rw [List.take_append_of_le_length (by simp; omega)]
                    exact h

/-- C10 counterexample: the claim fails for arbitrary trailing bytes.  The
261-byte `certFile` is accepted at offset 0 on its own; appending a copy
of it (a particular choice of trailing bytes after the structure) moves
the accepted offset to 261, not 0, because the backward scan meets the
appended copy first. -/
theorem claim10_counterexample :
    findValidSignature goUnmarshalRaw 50 certFile =
      some (.ok (.ok (⟨certFile⟩, 0))) ∧
    findValidSignature goUnmarshalRaw 50 (certFile ++ certFile) =
      some (.ok (.ok (⟨certFile⟩, 261))) ∧
    (261 : Nat) ≠ 0 :=
  ⟨by decide, by decide, by decide⟩

/-- C10 amended: the locator never requires the accepted structure to
extend to the end of the buffer — the bytes remaining after the unmarshal
are discarded unchecked.  For any prefix-stable unmarshal function,
appending trailing bytes preserves the acceptance condition at the same
offset, and the scan still returns that offset provided the trailing
bytes do not themselves introduce an accepted candidate at a higher
offset (otherwise the backward scan returns the new rightmost one). -/
theorem claim10_amended (um : List Nat → Option RawValue) (fuel : Nat)
    (data trailing : List Nat) (i : Nat)
    (hps : ∀ b raw, um b = some raw → ∀ t, um (b ++ t) = some raw)
    (hi : i + 2 ≤ data.length)
    (hacc : acceptsB um fuel data i = true) :
    acceptsB um fuel (data ++ trailing) i = true ∧
    ((∀ k, k < data.length + trailing.length → i < k →
        rejectsB um fuel (data ++ trailing) k = true) →
      ∃ raw, um ((data ++ trailing).drop i) = some raw ∧
        findValidSignature um fuel (data ++ trailing) =
          some (.ok (.ok (raw, i)))) := by
  obtain ⟨⟨hm1, hm2⟩, raw, hu, v, hv, hval⟩ :=
    (acceptsB_iff um fuel data i).mp hacc
  have hdrop : (data ++ trailing).drop i = data.drop i ++ trailing :=
    List.drop_append_of_le_length (by omega)
  have hacc2 : acceptsB um fuel (data ++ trailing) i = true := by
    apply (acceptsB_iff um fuel (data ++ trailing) i).mpr
    refine ⟨⟨?_, ?_⟩, raw, ?_, v, hv, hval⟩
    · rw [List.getD_append _ _ _ _ (by omega)]
      exact hm1
    · rw [List.getD_append _ _ _ _ (by omega)]
      exact hm2
    · rw [hdrop]
      exact hps _ raw hu trailing
  refine ⟨hacc2, fun hrej => ?_⟩
  have hlenapp : (data ++ trailing).length = data.length + trailing.length :=
    List.length_append data trailing
  exact findLoop_complete um fuel (data ++ trailing)
    ((data ++ trailing).length - 1) i (by omega) hacc2
    (fun k hk1 hk2 => hrej k (by omega) hk1)

/-- C10 witness: the amended statement at `certFile` with three trailing
zero bytes: the candidate at offset 0 stays accepted and is returned. -/
theorem claim10_witness :
    acceptsB goUnmarshalRaw 50 (certFile ++ [0, 0, 0]) 0 = true ∧
    findValidSignature goUnmarshalRaw 50 (certFile ++ [0, 0, 0]) =
      some (.ok (.ok (⟨certFile⟩, 0))) := by
  obtain ⟨h1, h2⟩ :=
    claim10_amended goUnmarshalRaw 50 certFile [0, 0, 0] 0
      goUnmarshalRaw_prefix (by decide) (by decide)
  obtain ⟨raw, hum, hfind⟩ := h2 (by decide)
  rw [List.drop_zero] at hum
  rw [show goUnmarshalRaw (certFile ++ [0, 0, 0]) = some ⟨certFile⟩ from
    by decide] at hum
  injection hum with he
  rw [he]
  exact ⟨h1, hfind⟩

end ParseSign
